import Mathlib

/-!
Verification of the schema migration engine in `store/sqlstore/upgrade.go`
(package `sqlstore` of pfthink/whatsmeow).

The Go code drives an ordered list of migration steps (`Upgrades`) over a SQL
database.  Its observable behaviour depends on the outcomes the underlying SQL
engine gives to each primitive operation (CREATE TABLE, Begin, the step body,
DELETE, INSERT, Commit).  We embed the code shallowly: an `Env` oracle fixes
the outcome of every primitive operation, indexed by the loop cursor at which
the operation is issued, and the Lean functions below mirror the Go control
flow statement by statement.  The persistent state we track is the part the
bookkeeping code touches: whether the `whatsmeow_version` table exists and the
list of rows it holds.  Each run also records a trace: which step indices were
invoked and how each opened transaction ended, so that exactly-once, ordering
and resource-discipline properties can be stated.
-/

namespace Sqlstore

/-- An opaque database error value (a Go `error`). -/
abbrev Err := Nat

/-- One stored cell of the `version` column of `whatsmeow_version`: either a
well-formed integer, or a value on which `row.Scan(&version)` would fail
(e.g. text in the INTEGER column). -/
inductive Cell where
  | intVal (v : Int)
  | malformed
  deriving DecidableEq, Repr

/-- The persistent database state the bookkeeping code observes: whether the
`whatsmeow_version` table exists, and its rows. -/
structure DBState where
  tableExists : Bool
  rows : List Cell
  deriving DecidableEq, Repr

/-- A brand-new store: no bookkeeping table, no rows. -/
def freshDB : DBState := { tableExists := false, rows := [] }

/-- How a transaction opened by `Upgrade` ended.  `commitFailed` is a
`tx.Commit()` call that returned an error: per `database/sql` semantics the
transaction is still terminated by the attempt.  `leftOpen` is a transaction
on which neither `Commit` nor `Rollback` was ever called before `Upgrade`
returned. -/
inductive TxEnd where
  | committed
  | rolledBack
  | commitFailed
  | leftOpen
  deriving DecidableEq, Repr

/-- Environment oracle: the outcome the underlying SQL engine gives to each
primitive operation.  Operations issued inside the upgrade loop are indexed by
the value of the loop cursor `version` at the time of the call. -/
structure Env where
  /-- Does `CREATE TABLE IF NOT EXISTS whatsmeow_version ...` succeed? -/
  createOK : Bool
  /-- The error returned when the CREATE fails. -/
  createErr : Err
  /-- Outcome of `c.db.Begin()` at cursor `i`. -/
  beginErr : Int → Option Err
  /-- Outcome of `Upgrades[i](tx, c)` (the migration step body). -/
  stepErr : Int → Option Err
  /-- Outcome of `tx.Exec("DELETE FROM whatsmeow_version")` at cursor `i`. -/
  deleteErr : Int → Option Err
  /-- Outcome of `tx.Exec("INSERT INTO whatsmeow_version ...")` at cursor `i`. -/
  insertErr : Int → Option Err
  /-- Outcome of `tx.Commit()` at cursor `i`. -/
  commitErr : Int → Option Err

/-- Result of `Container.getVersion`: the database state after the call, the
returned `int`, and the returned `error`. -/
structure GVResult where
  db : DBState
  version : Int
  err : Option Err
  deriving DecidableEq, Repr

/-- Model of `Container.getVersion`: issue the idempotent CREATE (on failure
return `(-1, err)` with the state untouched); then `version := 0`, query the
first row, and `Scan` it with the error deliberately discarded
(`_ = row.Scan(&version)`), so a missing or malformed row leaves `version`
at 0 and the call reports no error. -/
def getVersion (env : Env) (db : DBState) : GVResult :=
  if env.createOK then
    let db2 : DBState := { db with tableExists := true }
    let version : Int :=
      match db2.rows.head? with
      | some (Cell.intVal v) => v
      | _ => 0
    { db := db2, version := version, err := none }
  else
    { db := db, version := -1, err := some env.createErr }

/-- Model of `Container.setVersion` running inside the transaction opened at
cursor `i`: `DELETE FROM whatsmeow_version`, then `INSERT` the new version.
Takes the rows the transaction currently sees and returns the rows it sees
afterwards, with the returned `error`. -/
def setVersion (env : Env) (i : Int) (txRows : List Cell) (version : Int) :
    List Cell × Option Err :=
  match env.deleteErr i with
  | some e => (txRows, some e)
  | none =>
      match env.insertErr i with
      | some e => ([], some e)
      | none => ([Cell.intVal version], none)

/-- Result of one `Container.Upgrade` call: the database state on return, the
returned `error`, the step indices invoked in order, and how each opened
transaction ended, in order. -/
structure RunResult where
  db : DBState
  err : Option Err
  stepsRun : List Int
  txEnds : List TxEnd
  deriving DecidableEq, Repr

/-- Model of the loop `for ; version < len(Upgrades); version++` of
`Container.Upgrade`, for a step list of length `N`.  `fuel` bounds the number
of iterations; `Upgrade` supplies enough fuel for the loop to run to its
guard.  Each iteration mirrors the Go body: `Begin` (return on error), run
`Upgrades[version]` (on error `Rollback` and return), `setVersion(tx,
version+1)` (on error return with the transaction still open: the Go code
calls neither `Rollback` nor `Commit` on this path), `Commit` (on error
return; the attempt terminates the transaction), then the committed rows
become the persistent rows and the loop continues. -/
def upgradeLoop (env : Env) (N : Nat) : Nat → DBState → Int → RunResult
  | 0, db, _ => { db := db, err := none, stepsRun := [], txEnds := [] }
  | fuel + 1, db, version =>
    if version < (N : Int) then
      match env.beginErr version with
      | some e => { db := db, err := some e, stepsRun := [], txEnds := [] }
      | none =>
        match env.stepErr version with
        | some e =>
            { db := db, err := some e, stepsRun := [version],
              txEnds := [TxEnd.rolledBack] }
        | none =>
          match setVersion env version db.rows (version + 1) with
          | (_, some e) =>
              { db := db, err := some e, stepsRun := [version],
                txEnds := [TxEnd.leftOpen] }
          | (txRows, none) =>
            match env.commitErr version with
            | some e =>
                { db := db, err := some e, stepsRun := [version],
                  txEnds := [TxEnd.commitFailed] }
            | none =>
              let r := upgradeLoop env N fuel { db with rows := txRows }
                (version + 1)
              { db := r.db, err := r.err, stepsRun := version :: r.stepsRun,
                txEnds := TxEnd.committed :: r.txEnds }
    else
      { db := db, err := none, stepsRun := [], txEnds := [] }

/-- Model of `Container.Upgrade` for a step list of length `N`: read the
current version via `getVersion` (abort on error), then run the upgrade loop
from that cursor. -/
def Upgrade (env : Env) (N : Nat) (db : DBState) : RunResult :=
  match getVersion env db with
  | { db := db2, version := _, err := some e } =>
      { db := db2, err := some e, stepsRun := [], txEnds := [] }
  | { db := db2, version := version, err := none } =>
      upgradeLoop env N (((N : Int) - version).toNat) db2 version

/-- Length of the `Upgrades` array in the source:
`var Upgrades = [...]upgradeFunc{upgradeV1, upgradeV2}`. -/
def UpgradesLen : Nat := 2

/-- The version a read of the stored rows reports: the first row if it is a
well-formed integer, otherwise 0. -/
def persistedVersion (db : DBState) : Int :=
  match db.rows.head? with
  | some (Cell.intVal v) => v
  | _ => 0

/-- The list `[a, a+1, ..., a+n-1]` of cursor values. -/
def intRange : Int → Nat → List Int
  | _, 0 => []
  | a, n + 1 => a :: intRange (a + 1) n

/-- Every primitive operation issued at a cursor below `k` succeeds. -/
def okBelow (env : Env) (k : Int) : Prop :=
  ∀ i : Int, i < k →
    env.beginErr i = none ∧ env.stepErr i = none ∧ env.deleteErr i = none ∧
      env.insertErr i = none ∧ env.commitErr i = none

end Sqlstore

namespace Sqlstore

theorem mem_intRange {a x : Int} {n : Nat} (h : x ∈ intRange a n) :
    a ≤ x ∧ x < a + n := by
  induction n generalizing a with
  | zero => simp [intRange] at h
  | succ n ih =>
    simp only [intRange, List.mem_cons] at h
    rcases h with rfl | h
    · omega
    · rcases ih h with ⟨h1, h2⟩
      push_cast at h2 ⊢
      omega

theorem upgradeLoop_ok (env : Env) (N : Nat) (h : okBelow env N) :
    ∀ fuel : Nat, ∀ db : DBState, ∀ version : Int,
      version ≤ (N : Int) → fuel = ((N : Int) - version).toNat →
      upgradeLoop env N fuel db version =
        { db := if fuel = 0 then db else { db with rows := [Cell.intVal N] },
          err := none, stepsRun := intRange version fuel,
          txEnds := List.replicate fuel TxEnd.committed } := by
  intro fuel
  induction fuel with
  | zero =>
    intro db version h1 h2
    simp [upgradeLoop, intRange]
  | succ fuel ih =>
    intro db version h1 h2
    have hlt : version < (N : Int) := by omega
    obtain ⟨hb, hs, hd, hi, hc⟩ := h version hlt
    have hfuel : fuel = ((N : Int) - (version + 1)).toNat := by omega
    have hrec := ih { db with rows := [Cell.intVal (version + 1)] }
      (version + 1) (by omega) hfuel
    simp only [upgradeLoop, if_pos hlt, hb, hs, setVersion, hd, hi, hc, hrec]
    by_cases hf : fuel = 0
    · have hvN : version + 1 = (N : Int) := by omega
      simp [hf, intRange, hvN, List.replicate_succ]
    · simp [hf, intRange, List.replicate_succ]

end Sqlstore

namespace Sqlstore

theorem upgradeLoop_fail (env : Env) (N : Nat) (k : Int) (e : Err)
    (hok : okBelow env k) (hb : env.beginErr k = none)
    (hs : env.stepErr k = some e) (hkN : k < (N : Int)) :
    ∀ fuel : Nat, ∀ db : DBState, ∀ version : Int,
      version ≤ k → fuel = ((N : Int) - version).toNat →
      upgradeLoop env N fuel db version =
        { db := if version = k then db else { db with rows := [Cell.intVal k] },
          err := some e,
          stepsRun := intRange version ((k - version).toNat + 1),
          txEnds := List.replicate ((k - version).toNat) TxEnd.committed ++
            [TxEnd.rolledBack] } := by
  intro fuel
  induction fuel with
  | zero =>
    intro db version h1 h2
    omega
  | succ fuel ih =>
    intro db version h1 h2
    have hlt : version < (N : Int) := by omega
    by_cases hvk : version = k
    · subst hvk
      simp [upgradeLoop, if_pos hlt, hb, hs, intRange]
    · obtain ⟨hb2, hs2, hd2, hi2, hc2⟩ := hok version (by omega)
      have hfuel : fuel = ((N : Int) - (version + 1)).toNat := by omega
      have hrec := ih { db with rows := [Cell.intVal (version + 1)] }
        (version + 1) (by omega) hfuel
      simp only [upgradeLoop, if_pos hlt, hb2, hs2, setVersion, hd2, hi2, hc2,
        hrec]
      have hm : (k - version).toNat = (k - (version + 1)).toNat + 1 := by omega
      by_cases hvk1 : version + 1 = k
      · have : Cell.intVal (version + 1) = Cell.intVal k := by rw [hvk1]
        simp [hvk1, hvk, hm, intRange, List.replicate_succ, this]
      · simp [hvk1, hvk, hm, intRange, List.replicate_succ]

theorem upgradeLoop_db_shape (env : Env) (N : Nat) :
    ∀ fuel : Nat, ∀ db : DBState, ∀ version : Int,
      (upgradeLoop env N fuel db version).db = db ∨
      ∃ w : Int, version < w ∧ w ≤ (N : Int) ∧
        (upgradeLoop env N fuel db version).db =
          { db with rows := [Cell.intVal w] } := by
  intro fuel
  induction fuel with
  | zero =>
    intro db version
    left
    rfl
  | succ fuel ih =>
    intro db version
    by_cases hlt : version < (N : Int)
    · rcases hb : env.beginErr version with _ | eb
      · rcases hs : env.stepErr version with _ | es
        · rcases hd : env.deleteErr version with _ | ed
          · rcases hi : env.insertErr version with _ | ei
            · rcases hc : env.commitErr version with _ | ec
              · have hrec := ih { db with rows := [Cell.intVal (version + 1)] }
                  (version + 1)
                simp only [upgradeLoop, if_pos hlt, hb, hs, setVersion, hd, hi,
                  hc]
                rcases hrec with hrec | ⟨w, hw1, hw2, hrec⟩
                · right
                  exact ⟨version + 1, by omega, by omega, hrec⟩
                · right
                  exact ⟨w, by omega, hw2, hrec⟩
              · left
                simp [upgradeLoop, if_pos hlt, hb, hs, setVersion, hd, hi, hc]
            · left
              simp [upgradeLoop, if_pos hlt, hb, hs, setVersion, hd, hi]
          · left
            simp [upgradeLoop, if_pos hlt, hb, hs, setVersion, hd]
        · left
          simp [upgradeLoop, if_pos hlt, hb, hs]
      · left
        simp [upgradeLoop, if_pos hlt, hb]
    · left
      simp [upgradeLoop, if_neg hlt]

end Sqlstore

namespace Sqlstore

/-- The shapes the bookkeeping rows can take when only this engine has touched
them: empty (fresh), or a single well-formed version in `[0, N]`. -/
def wellFormed (N : Nat) (db : DBState) : Prop :=
  db.rows = [] ∨
    ∃ w : Int, 0 ≤ w ∧ w ≤ (N : Int) ∧ db.rows = [Cell.intVal w]

theorem wellFormed_freshDB (N : Nat) : wellFormed N freshDB := Or.inl rfl

theorem persistedVersion_nonneg {N : Nat} {db : DBState}
    (h : wellFormed N db) : 0 ≤ persistedVersion db := by
  rcases h with h | ⟨w, hw0, hwN, h⟩ <;> simp [persistedVersion, h]
  exact hw0

theorem persistedVersion_le {N : Nat} {db : DBState}
    (h : wellFormed N db) : persistedVersion db ≤ (N : Int) := by
  rcases h with h | ⟨w, hw0, hwN, h⟩
  · simp [persistedVersion, h]
  · simp only [persistedVersion, h, List.head?]
    exact hwN

/-- One `Upgrade` call preserves well-formedness and never decreases the
persisted version. -/
theorem Upgrade_mono (env : Env) (N : Nat) (db : DBState)
    (h : wellFormed N db) :
    wellFormed N (Upgrade env N db).db ∧
    persistedVersion db ≤ persistedVersion (Upgrade env N db).db := by
  rcases hcr : env.createOK with _ | _
  · constructor
    · simpa [Upgrade, getVersion, hcr] using h
    · simp [Upgrade, getVersion, hcr]
  · have hver :
        (match ({ db with tableExists := true } : DBState).rows.head? with
          | some (Cell.intVal v) => v
          | _ => (0 : Int)) = persistedVersion db := by
      simp [persistedVersion]
    simp only [Upgrade, getVersion, hcr, if_pos, hver]
    have hshape := upgradeLoop_db_shape env N
      (((N : Int) - persistedVersion db).toNat)
      { db with tableExists := true } (persistedVersion db)
    rcases hshape with hsh | ⟨w, hw1, hw2, hsh⟩
    · rw [hsh]
      constructor
      · rcases h with h | ⟨w, hw0, hwN, h⟩
        · exact Or.inl h
        · exact Or.inr ⟨w, hw0, hwN, h⟩
      · simp [persistedVersion]
    · rw [hsh]
      have h0 : 0 ≤ persistedVersion db := persistedVersion_nonneg h
      constructor
      · exact Or.inr ⟨w, by omega, hw2, rfl⟩
      · have hw : ∀ b : Bool,
            persistedVersion { tableExists := b, rows := [Cell.intVal w] } = w := by
          intro b
          simp [persistedVersion]
        rw [hw]
        omega

/-- The persisted versions observed across a sequence of `Upgrade` calls:
the version before any call, then the version after each successive call. -/
def versionHistory : List Env → Nat → DBState → List Int
  | [], _, db => [persistedVersion db]
  | env :: rest, N, db =>
      persistedVersion db :: versionHistory rest N (Upgrade env N db).db

theorem versionHistory_head (envs : List Env) (N : Nat) (db : DBState) :
    (versionHistory envs N db).head? = some (persistedVersion db) := by
  cases envs <;> rfl

theorem versionHistory_chain (envs : List Env) (N : Nat) :
    ∀ db : DBState, wellFormed N db →
      List.Chain' (· ≤ ·) (versionHistory envs N db) ∧
      ∀ v ∈ versionHistory envs N db, v ≤ (N : Int) := by
  induction envs with
  | nil =>
    intro db h
    refine ⟨List.chain'_singleton _, ?_⟩
    intro v hv
    simp only [versionHistory, List.mem_singleton] at hv
    subst hv
    exact persistedVersion_le h
  | cons env rest ih =>
    intro db h
    obtain ⟨hwf, hmono⟩ := Upgrade_mono env N db h
    obtain ⟨hch, hbd⟩ := ih (Upgrade env N db).db hwf
    constructor
    · rw [versionHistory, List.chain'_cons']
      refine ⟨?_, hch⟩
      intro y hy
      rw [versionHistory_head] at hy
      simp only [Option.mem_def, Option.some.injEq] at hy
      omega
    · intro v hv
      rw [versionHistory, List.mem_cons] at hv
      rcases hv with rfl | hv
      · exact persistedVersion_le h
      · exact hbd v hv

end Sqlstore

namespace Sqlstore

/-- C1: For a store whose persisted version starts at 0 (a fresh store), if
every one of the N migration steps succeeds, then `Upgrade` invokes each step
exactly once, in ascending index order (the step invoked at cursor i is step
i, run inside the transaction upgrading version i to i+1), every transaction
commits, `Upgrade` returns no error, and the final persisted version equals
N. -/
theorem upgrade_all_steps_once (env : Env) (N : Nat)
    (hc : env.createOK = true) (h : okBelow env N) :
    (Upgrade env N freshDB).err = none ∧
    (Upgrade env N freshDB).stepsRun = intRange 0 N ∧
    (Upgrade env N freshDB).txEnds = List.replicate N TxEnd.committed ∧
    persistedVersion (Upgrade env N freshDB).db = (N : Int) := by
  have h0 : Upgrade env N freshDB =
      upgradeLoop env N N { tableExists := true, rows := [] } 0 := by
    simp [Upgrade, getVersion, hc, freshDB]
  have h1 := upgradeLoop_ok env N h N { tableExists := true, rows := [] } 0
    (by omega) (by omega)
  rw [h0, h1]
  refine ⟨rfl, rfl, rfl, ?_⟩
  by_cases hN : N = 0
  · simp [hN, persistedVersion]
  · simp [hN, persistedVersion]

def envC1 : Env where
  createOK := true
  createErr := 0
  beginErr := fun _ => none
  stepErr := fun _ => none
  deleteErr := fun _ => none
  insertErr := fun _ => none
  commitErr := fun _ => none

theorem upgrade_all_steps_once_witness :
    (Upgrade envC1 UpgradesLen freshDB).err = none ∧
    (Upgrade envC1 UpgradesLen freshDB).stepsRun = intRange 0 UpgradesLen ∧
    (Upgrade envC1 UpgradesLen freshDB).txEnds =
      List.replicate UpgradesLen TxEnd.committed ∧
    persistedVersion (Upgrade envC1 UpgradesLen freshDB).db =
      (UpgradesLen : Int) :=
  upgrade_all_steps_once envC1 UpgradesLen rfl
    (fun _ _ => ⟨rfl, rfl, rfl, rfl, rfl⟩)

/-- C4: Across any sequence of `Upgrade` invocations on a store that starts
fresh, the persisted schema version is non-decreasing over time and never
exceeds the total number of defined steps. -/
theorem upgrade_version_monotone (envs : List Env) (N : Nat) :
    List.Chain' (· ≤ ·) (versionHistory envs N freshDB) ∧
    ∀ v ∈ versionHistory envs N freshDB, v ≤ (N : Int) :=
  versionHistory_chain envs N freshDB (wellFormed_freshDB N)

/-- C5: If migration step k fails (all earlier operations succeeding),
`Upgrade` rolls back the transaction of step k, returns the step error
immediately so that no step after k is attempted, and the persisted
bookkeeping version remains at its last-committed value k. -/
theorem upgrade_step_failure_halts (env : Env) (N : Nat) (k : Int) (e : Err)
    (hc : env.createOK = true) (hok : okBelow env k)
    (hb : env.beginErr k = none) (hs : env.stepErr k = some e)
    (hk0 : 0 ≤ k) (hkN : k < (N : Int)) :
    (Upgrade env N freshDB).err = some e ∧
    (Upgrade env N freshDB).stepsRun = intRange 0 (k.toNat + 1) ∧
    (Upgrade env N freshDB).txEnds =
      List.replicate k.toNat TxEnd.committed ++ [TxEnd.rolledBack] ∧
    persistedVersion (Upgrade env N freshDB).db = k := by
  have h0 : Upgrade env N freshDB =
      upgradeLoop env N N { tableExists := true, rows := [] } 0 := by
    simp [Upgrade, getVersion, hc, freshDB]
  have h1 := upgradeLoop_fail env N k e hok hb hs hkN N
    { tableExists := true, rows := [] } 0 (by omega) (by omega)
  rw [h0, h1]
  have hkk : (k - 0).toNat = k.toNat := by omega
  refine ⟨rfl, by rw [hkk], by rw [hkk], ?_⟩
  by_cases hk : (0 : Int) = k
  · simp [← hk, persistedVersion]
  · simp only [if_neg hk]
    have : persistedVersion { tableExists := true, rows := [Cell.intVal k] } = k := by
      simp [persistedVersion]
    simpa using this

def envC5 : Env where
  createOK := true
  createErr := 0
  beginErr := fun _ => none
  stepErr := fun i => if i = 1 then some 7 else none
  deleteErr := fun _ => none
  insertErr := fun _ => none
  commitErr := fun _ => none

theorem upgrade_step_failure_halts_witness :
    (Upgrade envC5 UpgradesLen freshDB).err = some 7 ∧
    (Upgrade envC5 UpgradesLen freshDB).stepsRun =
      intRange 0 ((1 : Int).toNat + 1) ∧
    (Upgrade envC5 UpgradesLen freshDB).txEnds =
      List.replicate (1 : Int).toNat TxEnd.committed ++ [TxEnd.rolledBack] ∧
    persistedVersion (Upgrade envC5 UpgradesLen freshDB).db = 1 :=
  upgrade_step_failure_halts envC5 UpgradesLen 1 7 rfl
    (fun i hi => ⟨rfl, by simp [envC5]; omega, rfl, rfl, rfl⟩)
    rfl (by simp [envC5]) (by omega) (by decide)

end Sqlstore

namespace Sqlstore

/-- When the CREATE succeeds, `Upgrade` is the loop started at the persisted
version, on the state with the table ensured to exist. -/
theorem Upgrade_eq (env : Env) (N : Nat) (db : DBState)
    (hc : env.createOK = true) :
    Upgrade env N db =
      upgradeLoop env N (((N : Int) - persistedVersion db).toNat)
        { db with tableExists := true } (persistedVersion db) := by
  simp [Upgrade, getVersion, hc, persistedVersion]

/-- C3: If step k fails deterministically (all operations below k and the
begin at k succeeding), `Upgrade` on a fresh store returns an error and the
persisted version equals k; a subsequent `Upgrade` call with the fault
removed completes exactly the remaining steps k..N-1 — re-executing no step
with index below k — and brings the persisted version to N. -/
theorem upgrade_resumable (env1 env2 : Env) (N : Nat) (k : Int) (e : Err)
    (h1c : env1.createOK = true) (h1ok : okBelow env1 k)
    (h1b : env1.beginErr k = none) (h1s : env1.stepErr k = some e)
    (h2c : env2.createOK = true) (h2ok : okBelow env2 N)
    (hk0 : 0 ≤ k) (hkN : k < (N : Int)) :
    (Upgrade env1 N freshDB).err = some e ∧
    persistedVersion (Upgrade env1 N freshDB).db = k ∧
    (Upgrade env2 N (Upgrade env1 N freshDB).db).err = none ∧
    (Upgrade env2 N (Upgrade env1 N freshDB).db).stepsRun =
      intRange k ((N : Int) - k).toNat ∧
    (∀ i ∈ (Upgrade env2 N (Upgrade env1 N freshDB).db).stepsRun, k ≤ i) ∧
    persistedVersion (Upgrade env2 N (Upgrade env1 N freshDB).db).db =
      (N : Int) := by
  have h0 : Upgrade env1 N freshDB =
      upgradeLoop env1 N N { tableExists := true, rows := [] } 0 := by
    simp [Upgrade, getVersion, h1c, freshDB]
  have h1 := upgradeLoop_fail env1 N k e h1ok h1b h1s hkN N
    { tableExists := true, rows := [] } 0 (by omega) (by omega)
  have herr : (Upgrade env1 N freshDB).err = some e := by rw [h0, h1]
  have hpv : persistedVersion (Upgrade env1 N freshDB).db = k := by
    rw [h0, h1]
    by_cases hk : (0 : Int) = k
    · simp [← hk, persistedVersion]
    · simp only [if_neg hk]
      have hone : ∀ b : Bool,
          persistedVersion { tableExists := b, rows := [Cell.intVal k] } = k := by
        intro b
        simp [persistedVersion]
      simpa using hone true
  have h2 := Upgrade_eq env2 N (Upgrade env1 N freshDB).db h2c
  rw [hpv] at h2
  have h3 := upgradeLoop_ok env2 N h2ok (((N : Int) - k).toNat)
    { (Upgrade env1 N freshDB).db with tableExists := true } k (by omega) rfl
  rw [h3] at h2
  have hfz : ¬ ((N : Int) - k).toNat = 0 := by omega
  rw [if_neg hfz] at h2
  refine ⟨herr, hpv, ?_, ?_, ?_, ?_⟩
  · rw [h2]
  · rw [h2]
  · rw [h2]
    intro i hi
    exact (mem_intRange hi).1
  · rw [h2]
    simp [persistedVersion]

def envC3a : Env where
  createOK := true
  createErr := 0
  beginErr := fun _ => none
  stepErr := fun i => if i = 1 then some 7 else none
  deleteErr := fun _ => none
  insertErr := fun _ => none
  commitErr := fun _ => none

def envC3b : Env where
  createOK := true
  createErr := 0
  beginErr := fun _ => none
  stepErr := fun _ => none
  deleteErr := fun _ => none
  insertErr := fun _ => none
  commitErr := fun _ => none

theorem upgrade_resumable_witness :
    (Upgrade envC3a UpgradesLen freshDB).err = some 7 ∧
    persistedVersion (Upgrade envC3a UpgradesLen freshDB).db = 1 ∧
    (Upgrade envC3b UpgradesLen (Upgrade envC3a UpgradesLen freshDB).db).err =
      none ∧
    (Upgrade envC3b UpgradesLen
        (Upgrade envC3a UpgradesLen freshDB).db).stepsRun =
      intRange 1 ((UpgradesLen : Int) - 1).toNat ∧
    persistedVersion (Upgrade envC3b UpgradesLen
        (Upgrade envC3a UpgradesLen freshDB).db).db = (UpgradesLen : Int) := by
  obtain ⟨h1, h2, h3, h4, _, h6⟩ :=
    upgrade_resumable envC3a envC3b UpgradesLen 1 7 rfl
      (fun i hi => ⟨rfl, by simp only [envC3a]; rw [if_neg (by omega)], rfl,
        rfl, rfl⟩)
      rfl (by simp [envC3a]) rfl (fun _ _ => ⟨rfl, rfl, rfl, rfl, rfl⟩)
      (by omega) (by decide)
  exact ⟨h1, h2, h3, h4, h6⟩

end Sqlstore

namespace Sqlstore

def envC2 : Env where
  createOK := true
  createErr := 0
  beginErr := fun _ => none
  stepErr := fun _ => none
  deleteErr := fun i => if i = 0 then some 3 else none
  insertErr := fun _ => none
  commitErr := fun _ => none

/-- C2 counterexample: with every operation succeeding except the DELETE of
the version write at step 0, `Upgrade` on a fresh store returns the error but
the transaction of step 0 is neither committed nor rolled back — the code
returns from the `setVersion` failure without touching the transaction — so a
transaction is left open across the return of `Upgrade`. -/
theorem upgrade_tx_left_on_version_write_fail :
    (Upgrade envC2 UpgradesLen freshDB).err = some 3 ∧
    (Upgrade envC2 UpgradesLen freshDB).txEnds = [TxEnd.leftOpen] ∧
    TxEnd.leftOpen ≠ TxEnd.committed ∧ TxEnd.leftOpen ≠ TxEnd.rolledBack := by
  decide

theorem upgradeLoop_no_leftOpen (env : Env) (N : Nat)
    (h : ∀ i : Int, env.deleteErr i = none ∧ env.insertErr i = none) :
    ∀ fuel : Nat, ∀ db : DBState, ∀ version : Int,
      TxEnd.leftOpen ∉ (upgradeLoop env N fuel db version).txEnds := by
  intro fuel
  induction fuel with
  | zero =>
    intro db version ht
    simp [upgradeLoop] at ht
  | succ fuel ih =>
    intro db version ht
    by_cases hlt : version < (N : Int)
    · obtain ⟨hd, hi⟩ := h version
      rcases hb : env.beginErr version with _ | eb
      · rcases hs : env.stepErr version with _ | es
        · rcases hc : env.commitErr version with _ | ec
          · simp only [upgradeLoop, if_pos hlt, hb, hs, setVersion, hd, hi,
              hc, List.mem_cons] at ht
            rcases ht with ht | ht
            · exact TxEnd.noConfusion ht
            · exact ih _ _ ht
          · simp only [upgradeLoop, if_pos hlt, hb, hs, setVersion, hd, hi,
              hc, List.mem_singleton] at ht
            exact TxEnd.noConfusion ht
        · simp only [upgradeLoop, if_pos hlt, hb, hs,
              List.mem_singleton] at ht
          exact TxEnd.noConfusion ht
      · simp only [upgradeLoop, if_pos hlt, hb, List.not_mem_nil] at ht
    · simp only [upgradeLoop, if_neg hlt, List.not_mem_nil] at ht

/-- C2 amended: on the step-failure path the transaction is rolled back, and
on the commit path the commit attempt terminates the transaction (even when
it returns an error); but termination on every exit path only holds if the
version write never fails: provided no DELETE or INSERT of `setVersion`
fails, no transaction opened by `Upgrade` is ever left open across its
return.  (When a version write fails, the code returns with that transaction
neither committed nor rolled back.) -/
theorem upgrade_tx_terminated_unless_version_write_fails (env : Env)
    (N : Nat) (db : DBState)
    (h : ∀ i : Int, env.deleteErr i = none ∧ env.insertErr i = none) :
    TxEnd.leftOpen ∉ (Upgrade env N db).txEnds := by
  rcases hcr : env.createOK with _ | _
  · simp [Upgrade, getVersion, hcr]
  · rw [Upgrade_eq env N db hcr]
    exact upgradeLoop_no_leftOpen env N h _ _ _

def envC2b : Env where
  createOK := true
  createErr := 0
  beginErr := fun _ => none
  stepErr := fun _ => none
  deleteErr := fun _ => none
  insertErr := fun _ => none
  commitErr := fun i => if i = 1 then some 4 else none

theorem upgrade_tx_terminated_unless_version_write_fails_witness :
    (Upgrade envC2b UpgradesLen freshDB).txEnds =
      [TxEnd.committed, TxEnd.commitFailed] ∧
    TxEnd.leftOpen ∉ (Upgrade envC2b UpgradesLen freshDB).txEnds :=
  ⟨by decide,
   upgrade_tx_terminated_unless_version_write_fails envC2b UpgradesLen
     freshDB (fun _ => ⟨rfl, rfl⟩)⟩

end Sqlstore

namespace Sqlstore

def envC8a : Env where
  createOK := true
  createErr := 0
  beginErr := fun _ => none
  stepErr := fun i => if i = 0 then some 7 else none
  deleteErr := fun _ => none
  insertErr := fun _ => none
  commitErr := fun _ => none

def envC8b : Env where
  createOK := true
  createErr := 0
  beginErr := fun _ => none
  stepErr := fun i => if i = 1 then some 7 else none
  deleteErr := fun _ => none
  insertErr := fun _ => none
  commitErr := fun _ => none

/-- C8 counterexample: two runs that fail at different step indices (step 0
under `envC8a`, step 1 under `envC8b`) return exactly the same error value,
so the error `Upgrade` returns does not carry the index of the failed step —
it is the step error verbatim, and the two runs are indistinguishable by
their returned error. -/
theorem upgrade_error_lacks_index :
    (Upgrade envC8a UpgradesLen freshDB).err = some 7 ∧
    (Upgrade envC8b UpgradesLen freshDB).err = some 7 ∧
    (Upgrade envC8a UpgradesLen freshDB).stepsRun.getLast? = some 0 ∧
    (Upgrade envC8b UpgradesLen freshDB).stepsRun.getLast? = some 1 ∧
    (Upgrade envC8a UpgradesLen freshDB).err =
      (Upgrade envC8b UpgradesLen freshDB).err := by
  decide

theorem intRange_getLast (a : Int) (n : Nat) :
    (intRange a (n + 1)).getLast? = some (a + n) := by
  induction n generalizing a with
  | zero => simp [intRange]
  | succ n ih =>
    rw [show intRange a (n + 1 + 1) = a :: (a + 1) :: intRange (a + 1 + 1) n
        from rfl,
      List.getLast?_cons_cons,
      show (a + 1) :: intRange (a + 1 + 1) n = intRange (a + 1) (n + 1)
        from rfl,
      ih]
    congr 1
    push_cast
    ring

/-- C8 amended: when step k fails, `Upgrade` returns the step error value
verbatim — unchanged, with no step index attached to it; the failing index k
is recoverable only from the run itself (it is the last step invoked, and is
written to the log), not from the returned error. -/
theorem upgrade_error_verbatim (env : Env) (N : Nat) (k : Int) (e : Err)
    (hc : env.createOK = true) (hok : okBelow env k)
    (hb : env.beginErr k = none) (hs : env.stepErr k = some e)
    (hk0 : 0 ≤ k) (hkN : k < (N : Int)) :
    (Upgrade env N freshDB).err = some e ∧
    (Upgrade env N freshDB).stepsRun.getLast? = some k := by
  have h0 : Upgrade env N freshDB =
      upgradeLoop env N N { tableExists := true, rows := [] } 0 := by
    simp [Upgrade, getVersion, hc, freshDB]
  have h1 := upgradeLoop_fail env N k e hok hb hs hkN N
    { tableExists := true, rows := [] } 0 (by omega) (by omega)
  rw [h0, h1]
  refine ⟨rfl, ?_⟩
  show (intRange 0 ((k - 0).toNat + 1)).getLast? = some k
  rw [intRange_getLast]
  congr 1
  omega

theorem upgrade_error_verbatim_witness :
    (Upgrade envC8b UpgradesLen freshDB).err = some 7 ∧
    (Upgrade envC8b UpgradesLen freshDB).stepsRun.getLast? = some 1 :=
  upgrade_error_verbatim envC8b UpgradesLen 1 7 rfl
    (fun i hi => ⟨rfl, by simp only [envC8b]; rw [if_neg (by omega)], rfl,
      rfl, rfl⟩)
    rfl (by simp [envC8b]) (by omega) (by decide)

end Sqlstore

namespace Sqlstore

def envC6 : Env where
  createOK := true
  createErr := 0
  beginErr := fun _ => none
  stepErr := fun _ => none
  deleteErr := fun _ => none
  insertErr := fun _ => none
  commitErr := fun _ => none

/-- C6 counterexample: the first (successful) read of a fresh store creates
the bookkeeping table but inserts no row: afterwards the table holds zero
rows, not exactly one — CREATE TABLE IF NOT EXISTS creates no implicit row,
and the 0 default comes from the ignored Scan of an empty result. -/
theorem getVersion_fresh_table_empty :
    (getVersion envC6 freshDB).db.tableExists = true ∧
    (getVersion envC6 freshDB).err = none ∧
    (getVersion envC6 freshDB).version = 0 ∧
    (getVersion envC6 freshDB).db.rows.length = 0 ∧
    ¬ (getVersion envC6 freshDB).db.rows.length = 1 := by
  decide

/-- The persistent state after a sequence of `Upgrade` calls. -/
def runSeq : List Env → Nat → DBState → DBState
  | [], _, db => db
  | env :: rest, N, db => runSeq rest N (Upgrade env N db).db

theorem wellFormed_runSeq (N : Nat) :
    ∀ envs : List Env, ∀ db : DBState, wellFormed N db →
      wellFormed N (runSeq envs N db) := by
  intro envs
  induction envs with
  | nil => intro db h; exact h
  | cons env rest ih =>
    intro db h
    exact ih (Upgrade env N db).db (Upgrade_mono env N db h).1

/-- C6 amended: the first read of a fresh store creates the bookkeeping table
empty — the version-0 default is implicit in the absence of a row, not stored
as a row — and a read never adds or removes rows; a successful `setVersion`
(delete-then-insert) leaves the table with exactly one row; consequently,
across any sequence of `Upgrade` calls on a store that starts fresh, the
table never holds more than one row, so at most one logical current-version
value exists at any time. -/
theorem version_table_at_most_one_row :
    (∀ env : Env, ∀ db : DBState, env.createOK = true →
      (getVersion env db).db.rows = db.rows) ∧
    (∀ env : Env, ∀ i : Int, ∀ txRows : List Cell, ∀ v : Int,
      env.deleteErr i = none → env.insertErr i = none →
      (setVersion env i txRows v).1 = [Cell.intVal v]) ∧
    (∀ envs : List Env, ∀ N : Nat,
      (runSeq envs N freshDB).rows.length ≤ 1) := by
  refine ⟨?_, ?_, ?_⟩
  · intro env db h
    simp [getVersion, h]
  · intro env i txRows v hd hi
    simp [setVersion, hd, hi]
  · intro envs N
    have h := wellFormed_runSeq N envs freshDB (wellFormed_freshDB N)
    rcases h with h | ⟨w, _, _, h⟩ <;> simp [h]

theorem version_table_at_most_one_row_witness :
    (getVersion envC6 freshDB).db.rows = freshDB.rows ∧
    (setVersion envC6 0 [] 1).1 = [Cell.intVal 1] ∧
    (runSeq [envC6] UpgradesLen freshDB).rows.length ≤ 1 :=
  ⟨version_table_at_most_one_row.1 envC6 freshDB rfl,
   version_table_at_most_one_row.2.1 envC6 0 [] 1 rfl rfl,
   version_table_at_most_one_row.2.2 [envC6] UpgradesLen⟩

/-- C7: a successful `getVersion` on a brand-new store returns 0 with no
error, creating the bookkeeping table as a side effect with no prior
initialization; a second successful call afterwards again returns 0 with no
error and leaves the state entirely unchanged (reads never bump the version;
only a committed upgrade step changes the stored rows). -/
theorem getVersion_idempotent_fresh (env env2 : Env)
    (h1 : env.createOK = true) (h2 : env2.createOK = true) :
    getVersion env freshDB =
      { db := { tableExists := true, rows := [] }, version := 0,
        err := none } ∧
    getVersion env2 (getVersion env freshDB).db =
      { db := (getVersion env freshDB).db, version := 0, err := none } := by
  constructor
  · simp [getVersion, h1, freshDB]
  · simp [getVersion, h1, h2, freshDB]

def envC7 : Env where
  createOK := true
  createErr := 0
  beginErr := fun _ => none
  stepErr := fun _ => none
  deleteErr := fun _ => none
  insertErr := fun _ => none
  commitErr := fun _ => none

theorem getVersion_idempotent_fresh_witness :
    getVersion envC7 freshDB =
      { db := { tableExists := true, rows := [] }, version := 0,
        err := none } ∧
    getVersion envC7 (getVersion envC7 freshDB).db =
      { db := (getVersion envC7 freshDB).db, version := 0, err := none } :=
  getVersion_idempotent_fresh envC7 envC7 rfl rfl

def envC9 : Env where
  createOK := true
  createErr := 0
  beginErr := fun _ => none
  stepErr := fun _ => none
  deleteErr := fun _ => none
  insertErr := fun _ => none
  commitErr := fun _ => none

def dbMalformed : DBState :=
  { tableExists := true, rows := [Cell.malformed] }

/-- C9 counterexample: on a store whose stored version data is malformed (the
Scan of the stored cell fails), `getVersion` returns no error and reports
version 0 — the Scan error is discarded by `_ = row.Scan(&version)` — so a
malformed store is silently treated as a fresh store rather than surfacing a
bookkeeping error. -/
theorem getVersion_malformed_no_error :
    (getVersion envC9 dbMalformed).err = none ∧
    (getVersion envC9 dbMalformed).version = 0 := by
  decide

/-- C9 amended: `getVersion` returns an error exactly when the CREATE TABLE
IF NOT EXISTS statement fails, and `Upgrade` surfaces that error verbatim;
when the CREATE succeeds the call never errors, and failures reading the
stored version — including malformed stored data — are ignored and silently
treated as version 0. -/
theorem getVersion_error_iff_create_fails (env : Env) (N : Nat)
    (db : DBState) :
    (env.createOK = false →
      getVersion env db =
        { db := db, version := -1, err := some env.createErr } ∧
      (Upgrade env N db).err = some env.createErr) ∧
    (env.createOK = true →
      (getVersion env db).err = none ∧
      (getVersion env
        { tableExists := db.tableExists,
          rows := Cell.malformed :: db.rows }).version = 0 ∧
      (getVersion env
        { tableExists := db.tableExists,
          rows := Cell.malformed :: db.rows }).err = none) := by
  constructor
  · intro h
    constructor
    · simp [getVersion, h]
    · simp [Upgrade, getVersion, h]
  · intro h
    refine ⟨by simp [getVersion, h], by simp [getVersion, h],
      by simp [getVersion, h]⟩

def envC9fail : Env where
  createOK := false
  createErr := 9
  beginErr := fun _ => none
  stepErr := fun _ => none
  deleteErr := fun _ => none
  insertErr := fun _ => none
  commitErr := fun _ => none

theorem getVersion_error_iff_create_fails_witness :
    (getVersion envC9fail freshDB =
      { db := freshDB, version := -1, err := some 9 } ∧
     (Upgrade envC9fail UpgradesLen freshDB).err = some 9) ∧
    ((getVersion envC9 freshDB).err = none ∧
     (getVersion envC9
       { tableExists := freshDB.tableExists,
         rows := Cell.malformed :: freshDB.rows }).version = 0 ∧
     (getVersion envC9
       { tableExists := freshDB.tableExists,
         rows := Cell.malformed :: freshDB.rows }).err = none) :=
  ⟨(getVersion_error_iff_create_fails envC9fail UpgradesLen freshDB).1 rfl,
   (getVersion_error_iff_create_fails envC9 UpgradesLen freshDB).2 rfl⟩

/-- C10: whenever `getVersion` returns a non-nil error (the CREATE TABLE IF
NOT EXISTS statement failed), the integer returned alongside the error is -1,
not 0, so an error result is never confusable with the fresh-store default
version 0. -/
theorem getVersion_error_returns_neg_one (env : Env) (db : DBState) (e : Err)
    (h : (getVersion env db).err = some e) :
    (getVersion env db).version = -1 ∧ (getVersion env db).version ≠ 0 := by
  rcases hcr : env.createOK with _ | _
  · constructor
    · simp [getVersion, hcr]
    · simp [getVersion, hcr]
  · simp [getVersion, hcr] at h

def envC10 : Env where
  createOK := false
  createErr := 5
  beginErr := fun _ => none
  stepErr := fun _ => none
  deleteErr := fun _ => none
  insertErr := fun _ => none
  commitErr := fun _ => none

theorem getVersion_error_returns_neg_one_witness :
    (getVersion envC10 freshDB).version = -1 ∧
    (getVersion envC10 freshDB).version ≠ 0 :=
  getVersion_error_returns_neg_one envC10 freshDB 5 rfl

end Sqlstore
